import Mathlib

/-!
# Bootstrap FRR monitor (`pkg/monitor/dynfrr.go`)

A shallow embedding of the steady-state loop of `handleBootstrapStopFrr`
(lines 36-63) and of the event loop of `FrrWatch` (lines 104-135).

* The two probes of one monitor iteration are inputs: `primaryOk` is
  `err == nil` for `config.GetIngressConfig`, `ironicOk` is `err == nil` for
  `http.Get("http://localhost:6385/v1")`, which the code consults only when
  the primary check failed.
* `consecutiveErr` is a Go `int` that starts at `0` and is only incremented or
  reset to `0`.  Every iteration ends with `time.Sleep(1 * time.Second)`, so the
  counter is modelled as a natural number without wrap-around.
* `bootstrapApiFailuresThreshold` is a package constant declared outside the
  two source files; it is a parameter `threshold` of the model.
* The warm-up loop of lines 27-34 only polls and sleeps; it neither touches
  `consecutiveErr` nor sends, so the steady-state loop starts with the counter
  at `0` (line 21).
* A send `ch <- v` on `make(chan APIState, 1)` is a Go buffered-channel send:
  it proceeds when the buffer holds fewer elements than the capacity and
  otherwise parks the sending goroutine.
-/

namespace Dynfrr

/-- Modelled from the spec: the declaration of the type `APIState` and of its
constants `started` and `stopped` is not in the source files (only their uses
are); the spec describes it as an enumeration with exactly two members,
`started` and `stopped`. -/
inductive APIState where
  | started
  | stopped
  deriving DecidableEq, Repr

open APIState

/-- Outcomes of the probes of one steady-state iteration. -/
structure Probe where
  /-- Line 37: `config.GetIngressConfig` returned `err == nil`. -/
  primaryOk : Bool
  /-- Line 43: `http.Get` on the Ironic endpoint returned `err == nil`
  (evaluated only when the primary check failed). -/
  ironicOk : Bool
  deriving DecidableEq, Repr

/-- What one iteration leaves behind: the value of `consecutiveErr` at the end
of the loop body and the channel sends the body executed, in program order. -/
structure IterRecord where
  counter : Nat
  sends : List APIState
  deriving DecidableEq, Repr

/-- Lines 37-54: the `if`/`else` on the primary health check.  Returns the new
`consecutiveErr` and the sends executed inside the branch. -/
def healthBranch (threshold consecutiveErr : Nat) (p : Probe) : Nat × List APIState :=
  if p.primaryOk = false then
    -- line 43: the counter moves only when the Ironic probe fails as well
    if p.ironicOk = false then (consecutiveErr + 1, []) else (consecutiveErr, [])
  else
    -- lines 50-53
    (0, if consecutiveErr > threshold then [started] else [])

/-- Lines 55-61: the threshold check that follows the branch. -/
def thresholdCheck (threshold consecutiveErr : Nat) : List APIState :=
  if consecutiveErr > threshold then [stopped] else []

/-- Lines 37-61: the body of the steady-state loop. -/
def iterate (threshold consecutiveErr : Nat) (p : Probe) : IterRecord :=
  let b := healthBranch threshold consecutiveErr p
  { counter := b.1, sends := b.2 ++ thresholdCheck threshold b.1 }

/-- The steady-state loop run over a finite sequence of probe outcomes,
starting with `consecutiveErr = c`: one record per iteration. -/
def trace (threshold : Nat) : Nat → List Probe → List IterRecord
  | _, [] => []
  | c, p :: ps =>
    let r := iterate threshold c p
    r :: trace threshold r.counter ps

/-- Value of `consecutiveErr` after the loop ran over the sequence. -/
def finalCounter (threshold : Nat) : Nat → List Probe → Nat
  | c, [] => c
  | c, p :: ps => finalCounter threshold (iterate threshold c p).counter ps

/-- Go send on a buffered channel of capacity `cap` whose buffer holds `buf`:
`some` of the new buffer when the send proceeds, `none` when the sender has to
wait for a receive. -/
def chanSend (cap : Nat) (buf : List APIState) (v : APIState) : Option (List APIState) :=
  if buf.length < cap then some (buf ++ [v]) else none

/-- Go receive on a buffered channel whose buffer holds `buf`: the oldest
element and the rest, `none` when the buffer is empty. -/
def chanRecv (buf : List APIState) : Option (APIState × List APIState) :=
  match buf with
  | [] => none
  | v :: rest => some (v, rest)

/-- A monitor goroutine parked at a send. -/
structure Parked where
  /-- Contents of the channel buffer, left as they were. -/
  buf : List APIState
  /-- The value the parked send holds. -/
  sending : APIState
  /-- Sends of the loop body that come after the parked one. -/
  later : List APIState
  /-- Value of `consecutiveErr` at the end of the loop body. -/
  counter : Nat
  deriving DecidableEq, Repr

/-- How far one loop body gets against the state channel. -/
inductive ChanOutcome where
  /-- The body reached line 62 with this counter and channel buffer. -/
  | completed (counter : Nat) (buf : List APIState)
  /-- The body is parked at one of its sends. -/
  | parked (pk : Parked)
  deriving DecidableEq, Repr

/-- The sends of an iteration executed in order against the channel; `counter`
is the value of `consecutiveErr` the body ends with. -/
def sendAll (cap counter : Nat) : List APIState → List APIState → ChanOutcome
  | buf, [] => ChanOutcome.completed counter buf
  | buf, v :: vs =>
    match chanSend cap buf v with
    | none => ChanOutcome.parked { buf := buf, sending := v, later := vs, counter := counter }
    | some buf1 => sendAll cap counter buf1 vs

/-- One steady-state iteration against the state channel of line 81
(`make(chan APIState, 1)`) with no receive happening meanwhile. -/
def iterateOnChan (threshold consecutiveErr : Nat) (buf : List APIState) (p : Probe) :
    ChanOutcome :=
  let r := iterate threshold consecutiveErr p
  sendAll 1 r.counter buf r.sends

/-- The receive of line 109 while the monitor is parked: the Control Loop gets
the oldest buffered value, the parked send then enqueues its value and the
loop body goes on.  `none` when there is nothing to receive. -/
def drainAndResume (cap : Nat) (pk : Parked) : Option (APIState × ChanOutcome) :=
  match chanRecv pk.buf with
  | none => none
  | some (got, rest) => some (got, sendAll cap pk.counter rest (pk.sending :: pk.later))

/-- Length of the trailing run of iterations whose primary health check
failed (the quantity the specification compares the counter with). -/
def trailingFailRun (ps : List Probe) : Nat :=
  (ps.reverse.takeWhile (fun p => !p.primaryOk)).length

/-- Number of iterations of the trailing run of primary failures in which the
Ironic probe failed as well. -/
def trailingBothFailed (ps : List Probe) : Nat :=
  (ps.reverse.takeWhile (fun p => !p.primaryOk)).countP (fun p => !p.ironicOk)

/-! ## `FrrWatch`: the event loop and the delivery loop -/

/-- One second as a `time.Duration` (nanoseconds). -/
def second : Nat := 1000000000

/-- Lines 112-117: the command chosen for a received transition
(`[]byte("stop\n")` or `[]byte("reload\n")`, kept as the string literal). -/
def cmdMsg (APIStateChanged : APIState) : String :=
  if APIStateChanged = stopped then "stop\n" else "reload\n"

/-- Observable actions of the event loop. -/
inductive Action where
  /-- Line 118: `conn.Write(cmdMsg)` on connection handle `conn`. -/
  | write (conn : Nat) (msg : String)
  /-- Line 120: the success log line. -/
  | logSent (msg : String)
  /-- Lines 123-125: the failure log line. -/
  | logWriteFailed
  /-- Lines 126, 130, 133: `time.Sleep` of the given duration. -/
  | sleep (duration : Nat)
  deriving DecidableEq, Repr

/-- How one pass of the `for`/`select` of lines 104-135 ends: the loop goes
round again, or `FrrWatch` returns the given error value (`none` is `nil`). -/
inductive Flow where
  | next
  | ret (err : Option String)
  deriving DecidableEq, Repr

/-- The case of the `select` of line 105 that fires. -/
inductive SelectCase where
  | done
  | stateChanged (s : APIState)
  | default
  deriving DecidableEq, Repr

/-- Lines 111-127: the delivery loop.  `writeOk n` tells whether the `n`-th
call of `conn.Write` (counted from `attempt`) returns `err == nil`; the loop
has no exit other than the `break` of line 121, the fuel bounds the number of
attempts the model follows. -/
def deliver (conn : Nat) (s : APIState) (writeOk : Nat → Bool) : Nat → Nat → Option (List Action)
  | 0, _ => none
  | fuel + 1, attempt =>
    let msg := cmdMsg s
    if writeOk attempt = true then
      some [Action.write conn msg, Action.logSent msg]
    else
      (deliver conn s writeOk fuel (attempt + 1)).map
        (fun rest => [Action.write conn msg, Action.logWriteFailed, Action.sleep (1 * second)] ++ rest)

/-- Lines 105-134: one pass of the event loop for the case that fires. -/
def eventLoopStep (conn interval : Nat) (writeOk : Nat → Bool) (fuel : Nat) :
    SelectCase → Option (List Action × Flow)
  | SelectCase.done => some ([], Flow.ret none)
  | SelectCase.stateChanged s =>
    (deliver conn s writeOk fuel 0).map
      (fun acts => (acts ++ [Action.sleep (5 * second)], Flow.next))
  | SelectCase.default => some ([Action.sleep interval], Flow.next)

/-- The `(conn, bytes)` pairs of the writes of a run, in order. -/
def writesOf : List Action → List (Nat × String)
  | [] => []
  | Action.write conn msg :: rest => (conn, msg) :: writesOf rest
  | _ :: rest => writesOf rest

/-- The actions of one failed delivery attempt. -/
def failedAttempt (conn : Nat) (s : APIState) : List Action :=
  [Action.write conn (cmdMsg s), Action.logWriteFailed, Action.sleep (1 * second)]

/-- The actions of `k` failed delivery attempts in a row. -/
def failedAttempts (conn : Nat) (s : APIState) : Nat → List Action
  | 0 => []
  | k + 1 => failedAttempt conn s ++ failedAttempts conn s k

/-! ## Lemmas on one iteration -/

theorem iterate_counter (N c : Nat) (p : Probe) :
    (iterate N c p).counter =
      if p.primaryOk = false then (if p.ironicOk = false then c + 1 else c) else 0 := by
  unfold iterate healthBranch
  by_cases h1 : p.primaryOk = false <;> by_cases h2 : p.ironicOk = false <;> simp [h1, h2]

theorem iterate_primaryOk (N c : Nat) (p : Probe) (hp : p.primaryOk = true) :
    iterate N c p = { counter := 0, sends := if N < c then [started] else [] } := by
  unfold iterate healthBranch thresholdCheck
  simp [hp]

theorem iterate_primaryFail (N c : Nat) (p : Probe) (hp : p.primaryOk = false) :
    (iterate N c p).sends = thresholdCheck N (iterate N c p).counter := by
  unfold iterate healthBranch
  by_cases h2 : p.ironicOk = false <;> simp [hp, h2]

theorem stopped_mem_iterate (N c : Nat) (p : Probe) :
    stopped ∈ (iterate N c p).sends ↔ N < (iterate N c p).counter := by
  by_cases hp : p.primaryOk = false
  · rw [iterate_primaryFail N c p hp]
    unfold thresholdCheck
    by_cases h : (iterate N c p).counter > N <;> simp [h]
  · have hp1 : p.primaryOk = true := by simpa using hp
    rw [iterate_primaryOk N c p hp1]
    by_cases h : N < c <;> simp [h]

theorem started_mem_iterate (N c : Nat) (p : Probe) :
    started ∈ (iterate N c p).sends ↔ p.primaryOk = true ∧ N < c := by
  by_cases hp : p.primaryOk = false
  · rw [iterate_primaryFail N c p hp]
    unfold thresholdCheck
    by_cases h : (iterate N c p).counter > N <;> simp [h, hp]
  · have hp1 : p.primaryOk = true := by simpa using hp
    rw [iterate_primaryOk N c p hp1]
    by_cases h : N < c <;> simp [h, hp1]

theorem iterate_sends_cases (N c : Nat) (p : Probe) :
    (iterate N c p).sends = [] ∨ (iterate N c p).sends = [started] ∨
      (iterate N c p).sends = [stopped] := by
  by_cases hp : p.primaryOk = false
  · rw [iterate_primaryFail N c p hp]
    unfold thresholdCheck
    by_cases h : (iterate N c p).counter > N <;> simp [h]
  · have hp1 : p.primaryOk = true := by simpa using hp
    rw [iterate_primaryOk N c p hp1]
    by_cases h : N < c <;> simp [h]

/-! ## Lemmas on runs of the loop -/

theorem trace_length (N : Nat) (ps : List Probe) (c : Nat) :
    (trace N c ps).length = ps.length := by
  induction ps generalizing c with
  | nil => simp [trace]
  | cons p ps ih => simp [trace, ih]

theorem trace_append (N : Nat) (xs ys : List Probe) (c : Nat) :
    trace N c (xs ++ ys) = trace N c xs ++ trace N (finalCounter N c xs) ys := by
  induction xs generalizing c with
  | nil => simp [trace, finalCounter]
  | cons x xs ih => simp [trace, finalCounter, ih]

theorem finalCounter_append (N : Nat) (xs ys : List Probe) (c : Nat) :
    finalCounter N c (xs ++ ys) = finalCounter N (finalCounter N c xs) ys := by
  induction xs generalizing c with
  | nil => simp [finalCounter]
  | cons x xs ih => simp [finalCounter, ih]

theorem trace_zero (N c : Nat) (ps : List Probe) (r : IterRecord)
    (h : (trace N c ps)[0]? = some r) : ∃ p, ps[0]? = some p ∧ r = iterate N c p := by
  cases ps with
  | nil => simp [trace] at h
  | cons p ps =>
    simp [trace] at h
    exact ⟨p, by simp, h.symm⟩

theorem trace_succ (N : Nat) (ps : List Probe) (c j : Nat) (r : IterRecord)
    (h : (trace N c ps)[j + 1]? = some r) :
    ∃ rj p, (trace N c ps)[j]? = some rj ∧ ps[j + 1]? = some p ∧
      r = iterate N rj.counter p := by
  induction ps generalizing c j with
  | nil => simp [trace] at h
  | cons q qs ih =>
    simp only [trace, List.getElem?_cons_succ] at h
    cases j with
    | zero =>
      obtain ⟨p, hp, hr⟩ := trace_zero N _ qs r h
      exact ⟨iterate N c q, p, by simp [trace], by simpa using hp, hr⟩
    | succ j =>
      obtain ⟨rj, p, h1, h2, h3⟩ := ih _ j h
      exact ⟨rj, p, by simpa [trace] using h1, by simpa using h2, h3⟩

theorem trace_get_probe (N : Nat) (ps : List Probe) (c i : Nat) (r : IterRecord)
    (h : (trace N c ps)[i]? = some r) :
    ∃ p c0, ps[i]? = some p ∧ r = iterate N c0 p := by
  cases i with
  | zero =>
    obtain ⟨p, hp, hr⟩ := trace_zero N c ps r h
    exact ⟨p, c, hp, hr⟩
  | succ j =>
    obtain ⟨rj, p, _, hp, hr⟩ := trace_succ N ps c j r h
    exact ⟨p, rj.counter, hp, hr⟩

theorem stopped_mem_trace (N : Nat) (ps : List Probe) (c i : Nat) (r : IterRecord)
    (h : (trace N c ps)[i]? = some r) : stopped ∈ r.sends ↔ N < r.counter := by
  obtain ⟨p, c0, _, hr⟩ := trace_get_probe N ps c i r h
  rw [hr]
  exact stopped_mem_iterate N c0 p

theorem finalCounter_snoc (N c : Nat) (ps : List Probe) (p : Probe) :
    finalCounter N c (ps ++ [p]) = (iterate N (finalCounter N c ps) p).counter := by
  rw [finalCounter_append]
  simp [finalCounter]

theorem trailingBothFailed_snoc (ps : List Probe) (p : Probe) :
    trailingBothFailed (ps ++ [p]) =
      if p.primaryOk = false then
        (if p.ironicOk = false then trailingBothFailed ps + 1 else trailingBothFailed ps)
      else 0 := by
  unfold trailingBothFailed
  by_cases h1 : p.primaryOk = false <;> by_cases h2 : p.ironicOk = false <;>
    simp [List.reverse_append, List.takeWhile_cons, List.countP_cons, h1, h2]

theorem trace_bothFail_counter (N : Nat) (ps : List Probe) (c i : Nat) (r : IterRecord)
    (hall : ∀ p ∈ ps, p.primaryOk = false ∧ p.ironicOk = false)
    (h : (trace N c ps)[i]? = some r) : r.counter = c + i + 1 := by
  induction i generalizing r with
  | zero =>
    obtain ⟨p, hp, hr⟩ := trace_zero N c ps r h
    have hm := hall p (List.getElem?_mem hp)
    rw [hr, iterate_counter]
    simp [hm.1, hm.2]
  | succ j ih =>
    obtain ⟨rj, p, h1, hp, hr⟩ := trace_succ N ps c j r h
    have hm := hall p (List.getElem?_mem hp)
    rw [hr, iterate_counter, ih rj h1]
    simp [hm.1, hm.2]
    omega

theorem trace_quiet (N : Nat) (fails : List Probe) (c : Nat)
    (hf : ∀ p ∈ fails, p.primaryOk = false) (hb : c + fails.length ≤ N) :
    (∀ r ∈ trace N c fails, r.sends = []) ∧ finalCounter N c fails ≤ c + fails.length := by
  induction fails generalizing c with
  | nil => simp [trace, finalCounter]
  | cons p ps ih =>
    have hp : p.primaryOk = false := hf p (by simp)
    have hc : (iterate N c p).counter ≤ c + 1 := by
      rw [iterate_counter]
      by_cases h2 : p.ironicOk = false <;> simp [hp, h2]
    have hlen : (p :: ps).length = ps.length + 1 := by simp
    rw [hlen] at hb
    have hs : (iterate N c p).sends = [] := by
      rw [iterate_primaryFail N c p hp]
      unfold thresholdCheck
      have : ¬ (iterate N c p).counter > N := by omega
      simp [this]
    obtain ⟨ih1, ih2⟩ := ih (iterate N c p).counter (fun q hq => hf q (by simp [hq])) (by omega)
    refine ⟨?_, ?_⟩
    · intro r hr
      simp only [trace, List.mem_cons] at hr
      rcases hr with hr | hr
      · rw [hr]; exact hs
      · exact ih1 r hr
    · simp only [finalCounter]
      omega

theorem trace_allOk (N : Nat) (ps : List Probe) (c : Nat) (hc : c ≤ N)
    (hall : ∀ q ∈ ps, q.primaryOk = true) :
    (trace N c ps).map IterRecord.sends = List.replicate ps.length [] ∧
      finalCounter N c ps = (if ps = [] then c else 0) := by
  induction ps generalizing c with
  | nil => simp [trace, finalCounter]
  | cons p ps ih =>
    have hp : p.primaryOk = true := hall p (by simp)
    have hn : ¬ N < c := by omega
    obtain ⟨ih1, ih2⟩ := ih 0 (Nat.zero_le N) (fun q hq => hall q (by simp [hq]))
    refine ⟨?_, ?_⟩
    · simp [trace, iterate_primaryOk N c p hp, hn, ih1, List.replicate_succ]
    · simp only [finalCounter, iterate_primaryOk N c p hp, ih2]
      by_cases he : ps = [] <;> simp [he]

theorem sendAll_single (counter : Nat) (buf : List APIState) (v : APIState) :
    sendAll 1 counter buf [v] =
      if buf.length < 1 then ChanOutcome.completed counter (buf ++ [v])
      else ChanOutcome.parked { buf := buf, sending := v, later := [], counter := counter } := by
  unfold sendAll chanSend
  by_cases h : buf.length < 1 <;> simp [h, sendAll]

/-! ## Lemmas on the delivery loop -/

theorem deliver_retry (conn : Nat) (s : APIState) (writeOk : Nat → Bool) (k : Nat) :
    ∀ (fuel attempt : Nat), (∀ i, i < k → writeOk (attempt + i) = false) →
      writeOk (attempt + k) = true → k < fuel →
      deliver conn s writeOk fuel attempt =
        some (failedAttempts conn s k ++
          [Action.write conn (cmdMsg s), Action.logSent (cmdMsg s)]) := by
  induction k with
  | zero =>
    intro fuel attempt _ hok hfuel
    cases fuel with
    | zero => omega
    | succ f =>
      have hok0 : writeOk attempt = true := by simpa using hok
      simp [deliver, failedAttempts, hok0]
  | succ k ih =>
    intro fuel attempt hfail hok hfuel
    cases fuel with
    | zero => omega
    | succ f =>
      have h0 : writeOk attempt = false := by simpa using hfail 0 (Nat.succ_pos k)
      have hrec := ih f (attempt + 1)
        (fun i hi => by
          have := hfail (i + 1) (by omega)
          rwa [show attempt + 1 + i = attempt + (i + 1) by omega])
        (by rwa [show attempt + 1 + k = attempt + (k + 1) by omega])
        (by omega)
      simp [deliver, failedAttempts, failedAttempt, h0, hrec]

theorem deliver_pending (conn : Nat) (s : APIState) (writeOk : Nat → Bool) :
    ∀ (fuel attempt : Nat), (∀ i, i < fuel → writeOk (attempt + i) = false) →
      deliver conn s writeOk fuel attempt = none := by
  intro fuel
  induction fuel with
  | zero => intro attempt _; simp [deliver]
  | succ f ih =>
    intro attempt hfail
    have h0 : writeOk attempt = false := by simpa using hfail 0 (Nat.succ_pos f)
    have hrec := ih (attempt + 1)
      (fun i hi => by
        have := hfail (i + 1) (by omega)
        rwa [show attempt + 1 + i = attempt + (i + 1) by omega])
    simp [deliver, h0, hrec]

theorem deliver_writes (conn : Nat) (s : APIState) (writeOk : Nat → Bool) :
    ∀ (fuel attempt : Nat) (acts : List Action),
      deliver conn s writeOk fuel attempt = some acts →
      ∀ c m, Action.write c m ∈ acts → c = conn ∧ m = cmdMsg s := by
  intro fuel
  induction fuel with
  | zero => intro attempt acts h; simp [deliver] at h
  | succ f ih =>
    intro attempt acts h c m hm
    by_cases hw : writeOk attempt = true
    · simp [deliver, hw] at h
      rw [← h] at hm
      simp at hm
      exact hm
    · have hw0 : writeOk attempt = false := by simpa using hw
      cases hd : deliver conn s writeOk f (attempt + 1) with
      | none => simp [deliver, hw0, hd] at h
      | some rest =>
        simp [deliver, hw0, hd] at h
        rw [← h] at hm
        simp at hm
        rcases hm with hm | hm
        · exact hm
        · exact ih (attempt + 1) rest hd c m hm

theorem writesOf_failedAttempts (conn : Nat) (s : APIState) (k : Nat) (rest : List Action) :
    writesOf (failedAttempts conn s k ++ rest) =
      List.replicate k (conn, cmdMsg s) ++ writesOf rest := by
  induction k with
  | zero => simp [failedAttempts]
  | succ k ih =>
    simp [failedAttempts, failedAttempt, writesOf, ih, List.replicate_succ]

theorem count_failedAttempts (conn : Nat) (s : APIState) (k : Nat) :
    (failedAttempts conn s k).count Action.logWriteFailed = k := by
  induction k with
  | zero => simp [failedAttempts]
  | succ k ih =>
    simp [failedAttempts, failedAttempt, List.count_cons, ih]

theorem writesOf_append (xs ys : List Action) :
    writesOf (xs ++ ys) = writesOf xs ++ writesOf ys := by
  induction xs with
  | nil => simp [writesOf]
  | cons x xs ih => cases x <;> simp [writesOf, ih]

theorem deliver_has_write (conn : Nat) (s : APIState) (writeOk : Nat → Bool) :
    ∀ (fuel attempt : Nat) (acts : List Action),
      deliver conn s writeOk fuel attempt = some acts →
      Action.write conn (cmdMsg s) ∈ acts := by
  intro fuel
  induction fuel with
  | zero => intro attempt acts h; simp [deliver] at h
  | succ f ih =>
    intro attempt acts h
    by_cases hw : writeOk attempt = true
    · simp [deliver, hw] at h
      rw [← h]
      simp
    · have hw0 : writeOk attempt = false := by simpa using hw
      cases hd : deliver conn s writeOk f (attempt + 1) with
      | none => simp [deliver, hw0, hd] at h
      | some rest =>
        simp [deliver, hw0, hd] at h
        rw [← h]
        simp

theorem deliver_writesOf (conn : Nat) (s : APIState) (writeOk : Nat → Bool) :
    ∀ (fuel attempt : Nat) (acts : List Action),
      deliver conn s writeOk fuel attempt = some acts →
      ∃ n, writesOf acts = List.replicate (n + 1) (conn, cmdMsg s) := by
  intro fuel
  induction fuel with
  | zero => intro attempt acts h; simp [deliver] at h
  | succ f ih =>
    intro attempt acts h
    by_cases hw : writeOk attempt = true
    · simp [deliver, hw] at h
      rw [← h]
      exact ⟨0, by simp [writesOf]⟩
    · have hw0 : writeOk attempt = false := by simpa using hw
      cases hd : deliver conn s writeOk f (attempt + 1) with
      | none => simp [deliver, hw0, hd] at h
      | some rest =>
        simp [deliver, hw0, hd] at h
        obtain ⟨n, hn⟩ := ih (attempt + 1) rest hd
        rw [← h]
        exact ⟨n + 1, by simp [writesOf, hn, List.replicate_succ]⟩

/-! ## The monitor: `handleBootstrapStopFrr` -/

/-- C1, as stated, fails: after one iteration whose primary check failed while
the Ironic probe answered, `consecutiveErr` is `0` although the trailing run of
primary failures has length `1`; and two runs with the same primary outcomes
but different Ironic outcomes end with different counters. -/
theorem counter_not_trailing_primary_run :
    finalCounter 3 0 [{ primaryOk := false, ironicOk := true }] = 0 ∧
    trailingFailRun [{ primaryOk := false, ironicOk := true }] = 1 ∧
    finalCounter 3 0 [{ primaryOk := false, ironicOk := true }] ≠
      finalCounter 3 0 [{ primaryOk := false, ironicOk := false }] := by
  decide

/-- C1 (amended): after any finite sequence of iterations started with
`consecutiveErr = 0`, the counter equals the number of iterations of the
trailing run of primary failures in which the Ironic probe failed as well
(`0` if the last iteration succeeded or the sequence is empty); this never
exceeds the length of that trailing run. -/
theorem counter_counts_both_failed (N : Nat) (ps : List Probe) :
    finalCounter N 0 ps = trailingBothFailed ps ∧
      trailingBothFailed ps ≤ trailingFailRun ps := by
  refine ⟨?_, List.countP_le_length _⟩
  induction ps using List.reverseRecOn with
  | nil => rfl
  | append_singleton ps p ih =>
    rw [finalCounter_snoc, iterate_counter, trailingBothFailed_snoc, ih]

/-- C2, as stated, fails: with threshold `3`, four consecutive iterations whose
primary check fails while the Ironic probe answers emit nothing at all. -/
theorem primary_failures_alone_emit_nothing :
    (trace 3 0 (List.replicate 4 { primaryOk := false, ironicOk := true })).map
      IterRecord.sends = [[], [], [], []] := by
  decide

/-- C2 (amended): for every threshold `N`, starting from `consecutiveErr = 0`,
a run of `N + 1` consecutive iterations in which the primary health check and
the Ironic probe both fail emits `stopped` no later than the `(N + 1)`-th
iteration; it is emitted exactly at the `(N + 1)`-th. -/
theorem stopped_after_threshold_both_failed (N : Nat) (ps : List Probe)
    (hlen : ps.length = N + 1)
    (hall : ∀ p ∈ ps, p.primaryOk = false ∧ p.ironicOk = false) :
    (∃ i r, i ≤ N ∧ (trace N 0 ps)[i]? = some r ∧ stopped ∈ r.sends) ∧
    (∃ r, (trace N 0 ps)[N]? = some r ∧ r.sends = [stopped]) ∧
    (∀ i r, i < N → (trace N 0 ps)[i]? = some r → r.sends = []) := by
  have hN : N < (trace N 0 ps).length := by rw [trace_length]; omega
  have hget : (trace N 0 ps)[N]? = some ((trace N 0 ps)[N]) := List.getElem?_eq_getElem hN
  have hcnt := trace_bothFail_counter N ps 0 N _ hall hget
  have hsends : ((trace N 0 ps)[N]).sends = [stopped] := by
    obtain ⟨p, c0, hp, hr⟩ := trace_get_probe N ps 0 N _ hget
    have hm := hall p (List.getElem?_mem hp)
    have h1 := iterate_primaryFail N c0 p hm.1
    rw [← hr] at h1
    rw [h1, hcnt]
    simp [thresholdCheck]
  refine ⟨⟨N, _, Nat.le_refl N, hget, ?_⟩, ⟨_, hget, hsends⟩, ?_⟩
  · rw [hsends]; simp
  · intro i r hi hr
    have hc := trace_bothFail_counter N ps 0 i r hall hr
    obtain ⟨p, c0, hp, hr2⟩ := trace_get_probe N ps 0 i r hr
    have hm := hall p (List.getElem?_mem hp)
    have h1 := iterate_primaryFail N c0 p hm.1
    rw [← hr2] at h1
    rw [h1, hc]
    unfold thresholdCheck
    rw [if_neg (by omega)]

theorem stopped_after_threshold_both_failed_witness :
    (∃ i r, i ≤ 1 ∧ (trace 1 0 [{ primaryOk := false, ironicOk := false },
        { primaryOk := false, ironicOk := false }])[i]? = some r ∧ stopped ∈ r.sends) ∧
    (∃ r, (trace 1 0 [{ primaryOk := false, ironicOk := false },
        { primaryOk := false, ironicOk := false }])[1]? = some r ∧ r.sends = [stopped]) ∧
    (∀ i r, i < 1 → (trace 1 0 [{ primaryOk := false, ironicOk := false },
        { primaryOk := false, ironicOk := false }])[i]? = some r → r.sends = []) :=
  stopped_after_threshold_both_failed 1
    [{ primaryOk := false, ironicOk := false }, { primaryOk := false, ironicOk := false }]
    (by decide) (by decide)

/-- C3, as stated, fails: with the slot of the state channel already holding
an undrained transition, an iteration that emits `stopped` (counter above the
threshold, both probes failing) does not complete: it is parked at its send
with the slot unchanged; so is an iteration that emits `started` (primary
check succeeding after a breach). -/
theorem send_on_full_slot_blocks :
    (iterate 0 1 { primaryOk := false, ironicOk := false }).sends = [stopped] ∧
    iterateOnChan 0 1 [stopped] { primaryOk := false, ironicOk := false } =
      ChanOutcome.parked { buf := [stopped], sending := stopped, later := [], counter := 2 } ∧
    (iterate 0 1 { primaryOk := true, ironicOk := true }).sends = [started] ∧
    iterateOnChan 0 1 [stopped] { primaryOk := true, ironicOk := true } =
      ChanOutcome.parked { buf := [stopped], sending := started, later := [], counter := 0 } := by
  decide

/-- C3 (amended): an iteration that emits a transition `v` completes without
waiting when the slot of the state channel is empty, and then the slot holds
exactly `v`; when the slot already holds an undrained transition `w` the
iteration is parked at the send, the slot still holding `w` and the send still
holding `v`, until the Control Loop drains the slot: that receive yields `w`,
after it the iteration completes with `v` in the slot, so nothing is dropped or
superseded. -/
theorem send_completes_iff_slot_empty (N c : Nat) (p : Probe) (v : APIState)
    (hv : v ∈ (iterate N c p).sends) :
    iterateOnChan N c [] p = ChanOutcome.completed (iterate N c p).counter [v] ∧
    ∀ w, iterateOnChan N c [w] p =
        ChanOutcome.parked
          { buf := [w], sending := v, later := [], counter := (iterate N c p).counter } ∧
      drainAndResume 1
          { buf := [w], sending := v, later := [], counter := (iterate N c p).counter } =
        some (w, ChanOutcome.completed (iterate N c p).counter [v]) := by
  have hcases := iterate_sends_cases N c p
  have hsingle : (iterate N c p).sends = [v] := by
    rcases hcases with h | h | h
    · rw [h] at hv; simp at hv
    · rw [h] at hv ⊢; simp at hv; rw [hv]
    · rw [h] at hv ⊢; simp at hv; rw [hv]
  unfold iterateOnChan
  simp only [hsingle, sendAll_single]
  constructor
  · simp
  · intro w
    constructor
    · simp
    · simp [drainAndResume, chanRecv, sendAll_single]

theorem send_completes_iff_slot_empty_witness :
    iterateOnChan 3 4 [] { primaryOk := false, ironicOk := false } =
      ChanOutcome.completed (iterate 3 4 { primaryOk := false, ironicOk := false }).counter
        [stopped] ∧
    ∀ w, iterateOnChan 3 4 [w] { primaryOk := false, ironicOk := false } =
        ChanOutcome.parked
          { buf := [w], sending := stopped, later := [],
            counter := (iterate 3 4 { primaryOk := false, ironicOk := false }).counter } ∧
      drainAndResume 1
          { buf := [w], sending := stopped, later := [],
            counter := (iterate 3 4 { primaryOk := false, ironicOk := false }).counter } =
        some (w, ChanOutcome.completed
          (iterate 3 4 { primaryOk := false, ironicOk := false }).counter [stopped]) :=
  send_completes_iff_slot_empty 3 4 { primaryOk := false, ironicOk := false } stopped
    (by decide)

/-- C4: for every threshold `N` and every finite run started with
`consecutiveErr = 0`, an iteration that emits `started` has a successful
primary health check, and `stopped` was emitted at an earlier iteration with no
`started` emitted in between. -/
theorem started_only_after_stopped (N : Nat) (ps : List Probe) (i : Nat) (r : IterRecord)
    (h : (trace N 0 ps)[i]? = some r) (hs : started ∈ r.sends) :
    (∃ p, ps[i]? = some p ∧ p.primaryOk = true) ∧
    ∃ j rj, j < i ∧ (trace N 0 ps)[j]? = some rj ∧ stopped ∈ rj.sends ∧
      ∀ k rk, j < k → k < i → (trace N 0 ps)[k]? = some rk → started ∉ rk.sends := by
  cases i with
  | zero =>
    obtain ⟨p, _, hr⟩ := trace_zero N 0 ps r h
    rw [hr, started_mem_iterate] at hs
    omega
  | succ j =>
    obtain ⟨rj, p, h1, h2, h3⟩ := trace_succ N ps 0 j r h
    rw [h3, started_mem_iterate] at hs
    refine ⟨⟨p, h2, hs.1⟩, j, rj, Nat.lt_succ_self j, h1,
      (stopped_mem_trace N ps 0 j rj h1).2 hs.2, ?_⟩
    intro k rk hk1 hk2
    omega

theorem started_only_after_stopped_witness :
    (∃ p, [({ primaryOk := false, ironicOk := false } : Probe),
        { primaryOk := true, ironicOk := true }][1]? = some p ∧ p.primaryOk = true) ∧
    ∃ j rj, j < 1 ∧
      (trace 0 0 [{ primaryOk := false, ironicOk := false },
        { primaryOk := true, ironicOk := true }])[j]? = some rj ∧ stopped ∈ rj.sends ∧
      ∀ k rk, j < k → k < 1 →
        (trace 0 0 [{ primaryOk := false, ironicOk := false },
          { primaryOk := true, ironicOk := true }])[k]? = some rk → started ∉ rk.sends :=
  started_only_after_stopped 0
    [{ primaryOk := false, ironicOk := false }, { primaryOk := true, ironicOk := true }]
    1 { counter := 0, sends := [started] } (by decide) (by decide)

/-- C5: for every threshold `N`, starting from `consecutiveErr = 0`, exactly
`N` iterations with a failing health check followed by one iteration with a
successful health check emit no transition in any of the `N + 1` iterations
and leave `consecutiveErr` at `0`; the comparison with the threshold is strict:
a counter equal to `N` emits nothing, a counter of `N + 1` emits `stopped`. -/
theorem threshold_failures_then_success_silent (N : Nat) (fails : List Probe) (ok : Probe)
    (hlen : fails.length = N) (hf : ∀ p ∈ fails, p.primaryOk = false)
    (hok : ok.primaryOk = true) :
    (∀ r ∈ trace N 0 (fails ++ [ok]), r.sends = []) ∧
    finalCounter N 0 (fails ++ [ok]) = 0 ∧
    thresholdCheck N N = [] ∧ thresholdCheck N (N + 1) = [stopped] := by
  obtain ⟨hq1, hq2⟩ := trace_quiet N fails 0 hf (by omega)
  have hle : ¬ N < finalCounter N 0 fails := by omega
  refine ⟨?_, ?_, by simp [thresholdCheck], by simp [thresholdCheck]⟩
  · intro r hr
    rw [trace_append] at hr
    simp only [List.mem_append] at hr
    rcases hr with hr | hr
    · exact hq1 r hr
    · simp only [trace, List.mem_singleton] at hr
      rw [hr, iterate_primaryOk N _ ok hok]
      simp [hle]
  · rw [finalCounter_snoc, iterate_primaryOk N _ ok hok]

theorem threshold_failures_then_success_silent_witness :
    (∀ r ∈ trace 2 0 ([{ primaryOk := false, ironicOk := false },
        { primaryOk := false, ironicOk := false }] ++ [{ primaryOk := true, ironicOk := true }]),
      r.sends = []) ∧
    finalCounter 2 0 ([{ primaryOk := false, ironicOk := false },
        { primaryOk := false, ironicOk := false }] ++ [{ primaryOk := true, ironicOk := true }]) = 0 ∧
    thresholdCheck 2 2 = [] ∧ thresholdCheck 2 (2 + 1) = [stopped] :=
  threshold_failures_then_success_silent 2
    [{ primaryOk := false, ironicOk := false }, { primaryOk := false, ironicOk := false }]
    { primaryOk := true, ironicOk := true } (by decide) (by decide) (by decide)

/-- C8: for every threshold `N` and every finite run of the loop, `stopped`
is emitted at an iteration if and only if that iteration ends with
`consecutiveErr > N`; hence within any segment of consecutive iterations (in
particular the iterations since the last emitted `started`, or since start)
`stopped` is emitted if and only if the counter exceeded `N` at the end of at
least one iteration of the segment. -/
theorem stopped_iff_counter_exceeds (N c : Nat) (ps : List Probe) :
    (∀ (i : Nat) (r : IterRecord), (trace N c ps)[i]? = some r →
      (stopped ∈ r.sends ↔ N < r.counter)) ∧
    (∀ a b : Nat,
      (∃ (i : Nat) (r : IterRecord),
        a ≤ i ∧ i < b ∧ (trace N c ps)[i]? = some r ∧ stopped ∈ r.sends) ↔
      (∃ (i : Nat) (r : IterRecord),
        a ≤ i ∧ i < b ∧ (trace N c ps)[i]? = some r ∧ N < r.counter)) := by
  refine ⟨fun i r h => stopped_mem_trace N ps c i r h, ?_⟩
  intro a b
  constructor
  · rintro ⟨i, r, ha, hb, hr, hs⟩
    exact ⟨i, r, ha, hb, hr, (stopped_mem_trace N ps c i r hr).1 hs⟩
  · rintro ⟨i, r, ha, hb, hr, hs⟩
    exact ⟨i, r, ha, hb, hr, (stopped_mem_trace N ps c i r hr).2 hs⟩

theorem stopped_iff_counter_exceeds_witness :
    (stopped ∈ (IterRecord.mk 1 [stopped]).sends ↔ 0 < (IterRecord.mk 1 [stopped]).counter) :=
  (stopped_iff_counter_exceeds 0 0 [{ primaryOk := false, ironicOk := false }]).1 0
    { counter := 1, sends := [stopped] } (by decide)

/-- C9: for every threshold `N` and counter value `c`, an iteration whose
health check succeeds sets `consecutiveErr` to `0`, emits exactly one `started`
and no `stopped` when `c > N`, and emits nothing when `c ≤ N`; so over a run of
one or more consecutive successes after a breach, `started` is emitted exactly
once, at the first success, and the counter ends at `0`. -/
theorem success_resets_and_starts_once (N c : Nat) (p : Probe) (hp : p.primaryOk = true) :
    iterate N c p = { counter := 0, sends := if N < c then [started] else [] } ∧
    ∀ ps : List Probe, N < c → (∀ q ∈ ps, q.primaryOk = true) →
      (trace N c (p :: ps)).map IterRecord.sends = [started] :: List.replicate ps.length [] ∧
      finalCounter N c (p :: ps) = 0 := by
  refine ⟨iterate_primaryOk N c p hp, ?_⟩
  intro ps hc hall
  obtain ⟨h1, h2⟩ := trace_allOk N ps 0 (Nat.zero_le N) hall
  refine ⟨?_, ?_⟩
  · simp [trace, iterate_primaryOk N c p hp, hc, h1]
  · simp only [finalCounter, iterate_primaryOk N c p hp, h2]
    by_cases he : ps = [] <;> simp [he]

theorem success_resets_and_starts_once_witness :
    iterate 3 4 { primaryOk := true, ironicOk := false } =
      { counter := 0, sends := if 3 < 4 then [started] else [] } ∧
    ∀ ps : List Probe, 3 < 4 → (∀ q ∈ ps, q.primaryOk = true) →
      (trace 3 4 ({ primaryOk := true, ironicOk := false } :: ps)).map IterRecord.sends =
        [started] :: List.replicate ps.length [] ∧
      finalCounter 3 4 ({ primaryOk := true, ironicOk := false } :: ps) = 0 :=
  success_resets_and_starts_once 3 4 { primaryOk := true, ironicOk := false } (by decide)

/-! ## The control loop: `FrrWatch` -/

/-- C6: the command for `stopped` is `"stop\n"`, the command for every other
`APIState` (including `started`) is `"reload\n"`; a pass of the event loop that
handles a received transition `s` writes the command of `s` to the control
connection (at once when the first `Write` succeeds), all its writes are that
command, and every write of any pass happens while handling a received
transition and carries exactly its command; no other byte string is written. -/
theorem command_bytes_for_state :
    cmdMsg stopped = "stop\n" ∧ cmdMsg started = "reload\n" ∧
    (∀ s : APIState, s ≠ stopped → cmdMsg s = "reload\n") ∧
    (∀ (conn interval : Nat) (writeOk : Nat → Bool) (fuel : Nat) (sc : SelectCase)
        (acts : List Action) (flow : Flow) (c : Nat) (m : String),
      eventLoopStep conn interval writeOk fuel sc = some (acts, flow) →
      Action.write c m ∈ acts →
      (∃ s : APIState, sc = SelectCase.stateChanged s ∧ m = cmdMsg s) ∧
        (m = "stop\n" ∨ m = "reload\n")) ∧
    (∀ (conn interval : Nat) (writeOk : Nat → Bool) (fuel : Nat) (s : APIState)
        (acts : List Action) (flow : Flow),
      eventLoopStep conn interval writeOk fuel (SelectCase.stateChanged s) = some (acts, flow) →
      Action.write conn (cmdMsg s) ∈ acts ∧
        ∃ n, writesOf acts = List.replicate (n + 1) (conn, cmdMsg s)) ∧
    (∀ (conn interval : Nat) (writeOk : Nat → Bool) (fuel : Nat) (s : APIState),
      writeOk 0 = true →
      eventLoopStep conn interval writeOk (fuel + 1) (SelectCase.stateChanged s) =
        some ([Action.write conn (cmdMsg s), Action.logSent (cmdMsg s),
          Action.sleep (5 * second)], Flow.next)) := by
  refine ⟨rfl, rfl, ?_, ?_, ?_, ?_⟩
  · intro s hs
    cases s with
    | started => rfl
    | stopped => exact absurd rfl hs
  · intro conn interval writeOk fuel sc acts flow c m hstep hm
    cases sc with
    | done =>
      simp [eventLoopStep] at hstep
      obtain ⟨h1, _⟩ := hstep
      subst h1
      simp at hm
    | default =>
      simp [eventLoopStep] at hstep
      obtain ⟨h1, _⟩ := hstep
      subst h1
      simp at hm
    | stateChanged s =>
      cases hd : deliver conn s writeOk fuel 0 with
      | none => simp [eventLoopStep, hd] at hstep
      | some dacts =>
        simp [eventLoopStep, hd] at hstep
        obtain ⟨h1, _⟩ := hstep
        subst h1
        simp at hm
        have hw := (deliver_writes conn s writeOk fuel 0 dacts hd c m hm).2
        refine ⟨⟨s, rfl, hw⟩, ?_⟩
        rw [hw]
        cases s with
        | started => exact Or.inr rfl
        | stopped => exact Or.inl rfl
  · intro conn interval writeOk fuel s acts flow hstep
    cases hd : deliver conn s writeOk fuel 0 with
    | none => simp [eventLoopStep, hd] at hstep
    | some dacts =>
      simp [eventLoopStep, hd] at hstep
      obtain ⟨h1, _⟩ := hstep
      subst h1
      refine ⟨?_, ?_⟩
      · exact List.mem_append_left _ (deliver_has_write conn s writeOk fuel 0 dacts hd)
      · obtain ⟨n, hn⟩ := deliver_writesOf conn s writeOk fuel 0 dacts hd
        exact ⟨n, by rw [writesOf_append, hn]; simp [writesOf]⟩
  · intro conn interval writeOk fuel s hok
    simp [eventLoopStep, deliver, hok]

theorem command_bytes_for_state_witness :
    cmdMsg started = "reload\n" ∧
    ((∃ s : APIState, SelectCase.stateChanged stopped = SelectCase.stateChanged s ∧
        "stop\n" = cmdMsg s) ∧ ("stop\n" = "stop\n" ∨ "stop\n" = "reload\n")) ∧
    (Action.write 7 (cmdMsg stopped) ∈
        [Action.write 7 "stop\n", Action.logSent "stop\n", Action.sleep (5 * second)] ∧
      ∃ n, writesOf
        [Action.write 7 "stop\n", Action.logSent "stop\n", Action.sleep (5 * second)] =
          List.replicate (n + 1) (7, cmdMsg stopped)) ∧
    eventLoopStep 7 30 (fun _ => true) (0 + 1) (SelectCase.stateChanged started) =
      some ([Action.write 7 (cmdMsg started), Action.logSent (cmdMsg started),
        Action.sleep (5 * second)], Flow.next) :=
  ⟨command_bytes_for_state.2.2.1 started (by decide),
   command_bytes_for_state.2.2.2.1 7 30 (fun _ => true) 1 (SelectCase.stateChanged stopped)
    [Action.write 7 "stop\n", Action.logSent "stop\n", Action.sleep (5 * second)]
    Flow.next 7 "stop\n" rfl (by simp),
   command_bytes_for_state.2.2.2.2.1 7 30 (fun _ => true) 1 stopped
    [Action.write 7 "stop\n", Action.logSent "stop\n", Action.sleep (5 * second)]
    Flow.next rfl,
   command_bytes_for_state.2.2.2.2.2 7 30 (fun _ => true) 0 started rfl⟩

/-- C7: for every `APIState` `s` and every `k`, if `conn.Write` fails on the
first `k` attempts and succeeds on attempt `k + 1`, then handling `s` performs
exactly `k + 1` writes, all on the same connection handle and all of the
command bytes of `s`, logs exactly `k` failures, has not left the delivery
loop after any smaller number of attempts, leaves it right after the first
successful write, and the pass of the event loop goes on without returning an
error. -/
theorem delivery_retries_until_success (conn interval : Nat) (s : APIState) (k : Nat)
    (writeOk : Nat → Bool) (hfail : ∀ i, i < k → writeOk i = false)
    (hok : writeOk k = true) :
    (∀ fuel, k < fuel →
      eventLoopStep conn interval writeOk fuel (SelectCase.stateChanged s) =
        some (failedAttempts conn s k ++
          [Action.write conn (cmdMsg s), Action.logSent (cmdMsg s)] ++
          [Action.sleep (5 * second)], Flow.next)) ∧
    (∀ fuel, fuel ≤ k →
      eventLoopStep conn interval writeOk fuel (SelectCase.stateChanged s) = none) ∧
    writesOf (failedAttempts conn s k ++
      [Action.write conn (cmdMsg s), Action.logSent (cmdMsg s)] ++
      [Action.sleep (5 * second)]) = List.replicate (k + 1) (conn, cmdMsg s) ∧
    (failedAttempts conn s k ++
      [Action.write conn (cmdMsg s), Action.logSent (cmdMsg s)] ++
      [Action.sleep (5 * second)]).count Action.logWriteFailed = k := by
  refine ⟨?_, ?_, ?_, ?_⟩
  · intro fuel hfuel
    have hd := deliver_retry conn s writeOk k fuel 0
      (fun i hi => by simpa using hfail i hi) (by simpa using hok) hfuel
    simp [eventLoopStep, hd]
  · intro fuel hfuel
    have hd := deliver_pending conn s writeOk fuel 0
      (fun i hi => by simpa using hfail i (by omega))
    simp [eventLoopStep, hd]
  · rw [List.append_assoc, writesOf_failedAttempts]
    simp [writesOf, List.replicate_add]
  · rw [List.append_assoc, List.count_append, count_failedAttempts]
    simp [List.count_cons]

theorem delivery_retries_until_success_witness :
    (∀ fuel, 2 < fuel →
      eventLoopStep 7 30 (fun n => decide (2 ≤ n)) fuel (SelectCase.stateChanged stopped) =
        some (failedAttempts 7 stopped 2 ++
          [Action.write 7 (cmdMsg stopped), Action.logSent (cmdMsg stopped)] ++
          [Action.sleep (5 * second)], Flow.next)) ∧
    (∀ fuel, fuel ≤ 2 →
      eventLoopStep 7 30 (fun n => decide (2 ≤ n)) fuel (SelectCase.stateChanged stopped) =
        none) ∧
    writesOf (failedAttempts 7 stopped 2 ++
      [Action.write 7 (cmdMsg stopped), Action.logSent (cmdMsg stopped)] ++
      [Action.sleep (5 * second)]) = List.replicate (2 + 1) (7, cmdMsg stopped) ∧
    (failedAttempts 7 stopped 2 ++
      [Action.write 7 (cmdMsg stopped), Action.logSent (cmdMsg stopped)] ++
      [Action.sleep (5 * second)]).count Action.logWriteFailed = 2 :=
  delivery_retries_until_success 7 30 stopped 2 (fun n => decide (2 ≤ n))
    (fun i hi => by simp; omega) (by decide)

end Dynfrr
